import Mathlib

/-!
Shallow embedding of the SnapDrive snapshot capture-and-compare core
(`ImageDiffer` and `ScenarioRunner`), together with theorems settling the
frozen claims about it.

Conventions of the embedding:
* A decoded raw image (the result of `sharp(path).raw().toBuffer(...)`) is a
  `RawImage`: width, height, channel count and a total byte function `data`.
  The JavaScript reads `buf[i] ?? 0`, so out-of-range reads are `0`; a total
  function over `ℕ` with the convention that indices beyond
  `width * height * channels` hold the value the function gives them models
  this (the code never reads past the buffer except through `?? 0`).
* JavaScript numbers on the code paths modelled here are integers and exact
  rationals; they are embedded as `ℤ` / `ℚ`.  Division is `ℚ` division;
  the one place the code divides by a possibly-zero count is guarded in the
  theorems by positivity hypotheses (decodable raster images have positive
  dimensions).
* Fallible operations (a `throw` in TypeScript) are `Except String`.
* File-system state is a partial map from paths to file contents.
-/

namespace SnapDrive

/-- A decoded raw image buffer: `sharp(path).raw().toBuffer({resolveWithObject:true})`
yields pixel data of `width * height * channels` bytes in row-major order. -/
structure RawImage where
  width : ℕ
  height : ℕ
  channels : ℕ
  data : ℕ → ℕ

/-- One iteration of the inner channel loop of `ImageDiffer.compare`: pixel
with base byte index `i` differs when one of the first `min(channels, 3)`
channels (RGB only, alpha skipped) differs under exact equality. -/
def pixelDifferent (a b : RawImage) (i : ℕ) : Bool :=
  (List.range (min a.channels 3)).any fun c => a.data (i + c) != b.data (i + c)

/-- The outer pixel loop of `ImageDiffer.compare`: the loop walks the buffer
in steps of `channels`, so it visits exactly the `width * height` pixel base
indices `p * channels`, counting the differing ones. -/
def countDifferentPixels (a b : RawImage) : ℕ :=
  ((List.range (a.width * a.height)).filter fun p =>
    pixelDifferent a b (p * a.channels)).length

/-- Result record of `ImageDiffer.compare` (the optional `diffImagePath` is a
pure file-output artifact and carries no comparison information). -/
structure DiffResult where
  «match» : Bool
  differenceRatio : ℚ
  differentPixels : ℕ
  totalPixels : ℕ
  deriving DecidableEq, Repr

/-- Body of `ImageDiffer.compare` after both images decoded: dimension check,
pixel loop, ratio and threshold.  `generateDiff` only controls whether a diff
visualization file is written; it does not influence any returned field. -/
def compareCore (actual baseline : RawImage) (tolerance : ℚ) : DiffResult :=
  if actual.width ≠ baseline.width ∨ actual.height ≠ baseline.height then
    { «match» := false
      differenceRatio := 1
      differentPixels := 0
      totalPixels := actual.width * actual.height }
  else
    let totalPixels := actual.width * actual.height
    let differentPixels := countDifferentPixels actual baseline
    let differenceRatio : ℚ := (differentPixels : ℚ) / (totalPixels : ℚ)
    { «match» := decide (differenceRatio ≤ tolerance)
      differenceRatio := differenceRatio
      differentPixels := differentPixels
      totalPixels := totalPixels }

/-- Embedding of `ImageDiffer.compare`.  The existence check on the baseline
path runs before any image is loaded; a missing baseline short-circuits to a
maximal-difference result.  Decoding failures (`sharp` rejecting) propagate
as errors, mirroring the `try`/`catch` that rethrows. -/
def compare (actualLoad : Except String RawImage) (baselineExists : Bool)
    (baselineLoad : Except String RawImage) (tolerance : ℚ)
    (generateDiff : Bool) : Except String DiffResult :=
  if !baselineExists then
    .ok { «match» := false, differenceRatio := 1, differentPixels := 0, totalPixels := 0 }
  else do
    let actual ← actualLoad
    let baseline ← baselineLoad
    let _ := generateDiff
    .ok (compareCore actual baseline tolerance)

/-- Spec-side count of differing pixels, phrased exactly as the spec words it:
a pixel is different when at least one of its first three channels (RGB,
alpha ignored) differs between actual and baseline. -/
def specDifferentPixelCount (a b : RawImage) : ℕ :=
  ((List.range (a.width * a.height)).filter fun p =>
    decide (∃ c < 3, a.data (p * a.channels + c) ≠ b.data (p * a.channels + c))).length

lemma pixelDifferent_eq_spec (a b : RawImage) (h3 : 3 ≤ a.channels) (i : ℕ) :
    pixelDifferent a b i = decide (∃ c < 3, a.data (i + c) ≠ b.data (i + c)) := by
  have hmin : min a.channels 3 = 3 := by omega
  simp only [pixelDifferent, hmin]
  rcases h : decide (∃ c < 3, a.data (i + c) ≠ b.data (i + c)) with _ | _
  · simp only [decide_eq_false_iff_not, not_exists, not_and, not_not] at h
    simp only [List.any_eq_false, List.mem_range]
    intro c hc
    simp [h c hc]
  · simp only [decide_eq_true_eq] at h
    obtain ⟨c, hc, hne⟩ := h
    refine List.any_eq_true.mpr ⟨c, List.mem_range.mpr hc, ?_⟩
    simpa using hne

lemma countDifferentPixels_eq_spec (a b : RawImage) (h3 : 3 ≤ a.channels) :
    countDifferentPixels a b = specDifferentPixelCount a b := by
  unfold countDifferentPixels specDifferentPixelCount
  congr 1
  apply List.filter_congr
  intro p _
  exact pixelDifferent_eq_spec a b h3 (p * a.channels)

lemma pixelDifferent_self (a : RawImage) (i : ℕ) : pixelDifferent a a i = false := by
  simp [pixelDifferent]

lemma countDifferentPixels_self (a : RawImage) : countDifferentPixels a a = 0 := by
  simp [countDifferentPixels, pixelDifferent_self]

lemma compareCore_eq_dims (a b : RawImage) (t : ℚ)
    (hw : a.width = b.width) (hh : a.height = b.height) :
    compareCore a b t =
      { «match» := decide ((countDifferentPixels a b : ℚ) / (a.width * a.height : ℕ) ≤ t)
        differenceRatio := (countDifferentPixels a b : ℚ) / (a.width * a.height : ℕ)
        differentPixels := countDifferentPixels a b
        totalPixels := a.width * a.height } := by
  simp [compareCore, hw, hh]

/-- C1: with equal dimensions (and matching channel layout with at least the
three RGB channels, as required for byte-level comparability), `compare`
counts a pixel as different exactly when one of its first three channels
differs; `differenceRatio = differentPixels / totalPixels` with
`totalPixels = width * height`; `match = (differenceRatio ≤ tolerance)`;
the ratio is independent of the tolerance, `match` at tolerance `t` is
exactly the tolerance-0 ratio compared against `t`, and a self-comparison
has ratio 0. -/
theorem compare_equal_dims_spec (a b : RawImage) (t : ℚ) (gd : Bool)
    (hw : a.width = b.width) (hh : a.height = b.height)
    (hch : a.channels = b.channels) (h3 : 3 ≤ a.channels)
    (hwpos : 0 < a.width) (hhpos : 0 < a.height) :
    compare (.ok a) true (.ok b) t gd =
      .ok { «match» := decide ((specDifferentPixelCount a b : ℚ) / ((a.width * a.height : ℕ) : ℚ) ≤ t)
            differenceRatio := (specDifferentPixelCount a b : ℚ) / ((a.width * a.height : ℕ) : ℚ)
            differentPixels := specDifferentPixelCount a b
            totalPixels := a.width * a.height } ∧
    (compareCore a b t).differenceRatio = (compareCore a b 0).differenceRatio ∧
    ((compareCore a b t).«match» = true ↔ (compareCore a b 0).differenceRatio ≤ t) ∧
    (compareCore a a t).differenceRatio = 0 := by
  have hcount := countDifferentPixels_eq_spec a b h3
  have hcore := compareCore_eq_dims a b t hw hh
  have hcore0 := compareCore_eq_dims a b 0 hw hh
  refine ⟨?_, ?_, ?_, ?_⟩
  · simp only [compare, Bool.not_true, Bool.false_eq_true, if_false, bind, Except.bind]
    rw [hcore, hcount]
  · rw [hcore, hcore0]
  · rw [hcore, hcore0]
    simp
  · rw [compareCore_eq_dims a a t rfl rfl, countDifferentPixels_self]
    simp

/-- Witness for C1 at concrete 1×1 RGB images differing in the red channel. -/
theorem compare_equal_dims_spec_witness :
    compare (.ok ⟨1, 1, 3, fun _ => 0⟩) true (.ok ⟨1, 1, 3, fun i => if i = 0 then 7 else 0⟩)
        (1/2) true =
      .ok { «match» := decide ((specDifferentPixelCount ⟨1, 1, 3, fun _ => 0⟩
              ⟨1, 1, 3, fun i => if i = 0 then 7 else 0⟩ : ℚ) / ((1 * 1 : ℕ) : ℚ) ≤ (1/2 : ℚ))
            differenceRatio := (specDifferentPixelCount ⟨1, 1, 3, fun _ => 0⟩
              ⟨1, 1, 3, fun i => if i = 0 then 7 else 0⟩ : ℚ) / ((1 * 1 : ℕ) : ℚ)
            differentPixels := specDifferentPixelCount ⟨1, 1, 3, fun _ => 0⟩
              ⟨1, 1, 3, fun i => if i = 0 then 7 else 0⟩
            totalPixels := 1 * 1 } ∧
    (compareCore ⟨1, 1, 3, fun _ => 0⟩ ⟨1, 1, 3, fun i => if i = 0 then 7 else 0⟩
        (1/2)).differenceRatio =
      (compareCore ⟨1, 1, 3, fun _ => 0⟩ ⟨1, 1, 3, fun i => if i = 0 then 7 else 0⟩
        0).differenceRatio ∧
    ((compareCore ⟨1, 1, 3, fun _ => 0⟩ ⟨1, 1, 3, fun i => if i = 0 then 7 else 0⟩
        (1/2)).«match» = true ↔
      (compareCore ⟨1, 1, 3, fun _ => 0⟩ ⟨1, 1, 3, fun i => if i = 0 then 7 else 0⟩
        0).differenceRatio ≤ (1/2 : ℚ)) ∧
    (compareCore ⟨1, 1, 3, fun _ => 0⟩ ⟨1, 1, 3, fun _ => 0⟩ (1/2)).differenceRatio = 0 :=
  compare_equal_dims_spec ⟨1, 1, 3, fun _ => 0⟩ ⟨1, 1, 3, fun i => if i = 0 then 7 else 0⟩
    (1/2) true rfl rfl rfl (by decide) (by decide) (by decide)

/-- C2: with unequal dimensions `compare` returns `match = false` and
`differenceRatio = 1` for every tolerance (including 1), and performs no
per-pixel comparison (`differentPixels = 0` is returned untouched). -/
theorem compare_unequal_dims (a b : RawImage) (t : ℚ) (gd : Bool)
    (hne : a.width ≠ b.width ∨ a.height ≠ b.height) :
    compare (.ok a) true (.ok b) t gd =
      .ok { «match» := false, differenceRatio := 1, differentPixels := 0,
            totalPixels := a.width * a.height } := by
  simp only [compare, Bool.not_true, Bool.false_eq_true, if_false, bind, Except.bind]
  simp [compareCore, hne]

/-- Witness for C2: a 1×1 against a 2×1 image, tolerance 1. -/
theorem compare_unequal_dims_witness :
    compare (.ok ⟨1, 1, 3, fun _ => 0⟩) true (.ok ⟨2, 1, 3, fun _ => 0⟩) 1 true =
      .ok { «match» := false, differenceRatio := 1, differentPixels := 0,
            totalPixels := 1 * 1 } :=
  compare_unequal_dims ⟨1, 1, 3, fun _ => 0⟩ ⟨2, 1, 3, fun _ => 0⟩ 1 true (by left; decide)

/-- C3: when the baseline path does not exist, `compare` returns
`match = false` and `differenceRatio = 1` and never throws, whatever the
tolerance, the `generateDiff` option and whatever loading the actual image
would have produced (the existence check precedes every load). -/
theorem compare_missing_baseline (actualLoad baselineLoad : Except String RawImage)
    (t : ℚ) (gd : Bool) :
    compare actualLoad false baselineLoad t gd =
      .ok { «match» := false, differenceRatio := 1, differentPixels := 0, totalPixels := 0 } := by
  simp [compare]

/-!
Scenario runner (`ScenarioRunner.runTestCase`).  A step execution either
throws (`.error msg`) or returns an optional `CheckpointResult` (checkpoint
family steps return one, plain actions return nothing).  The runner loop
accumulates `StepResult`s and `CheckpointResult`s, folds checkpoint matches
into the success flag, and `break`s on the first thrown error.
-/

/-- Checkpoint outcome record built by `executeStep` for checkpoint-family
steps (diff/segment path fields that never influence control flow are
omitted). -/
structure CheckpointResult where
  name : String
  «match» : Bool
  differencePercent : ℚ
  baselinePath : String
  actualPath : String
  deriving DecidableEq, Repr

/-- Per-step outcome record.  Wall-clock `duration` is not modelled. -/
structure StepResult where
  stepIndex : ℕ
  success : Bool
  error : Option String
  checkpoint : Option CheckpointResult
  deriving DecidableEq, Repr

/-- Aggregate result of `runTestCase` (timing fields not modelled). -/
structure TestCaseResult where
  success : Bool
  steps : List StepResult
  checkpoints : List CheckpointResult
  deriving DecidableEq, Repr

/-- Success flag of a non-throwing step: initialized `true`, cleared when the
step produced a checkpoint whose `match` is false and baseline-update mode is
off. -/
def stepSuccessOf (updateBaselines : Bool) (cp : Option CheckpointResult) : Bool :=
  match cp with
  | some c => c.«match» || updateBaselines
  | none => true

/-- The `StepResult` recorded for a step that did not throw. -/
def okStepResult (updateBaselines : Bool) (i : ℕ) (cp : Option CheckpointResult) : StepResult :=
  { stepIndex := i
    success := stepSuccessOf updateBaselines cp
    error := none
    checkpoint := cp }

/-- The step loop of `ScenarioRunner.runTestCase`, starting at step index `i`
with `n` steps remaining, where `exec` is the (deterministic) outcome of
`executeStep` per step index.  On `.error` the loop records the failed step
and breaks; otherwise it records the step, folds the checkpoint into the
success flag and continues. -/
def runStepsFrom (exec : ℕ → Except String (Option CheckpointResult))
    (updateBaselines : Bool) : ℕ → ℕ → TestCaseResult
  | _, 0 => { success := true, steps := [], checkpoints := [] }
  | i, n + 1 =>
    match exec i with
    | .error e =>
      { success := false
        steps := [{ stepIndex := i, success := false, error := some e, checkpoint := none }]
        checkpoints := [] }
    | .ok cp =>
      let rest := runStepsFrom exec updateBaselines (i + 1) n
      { success := stepSuccessOf updateBaselines cp && rest.success
        steps := okStepResult updateBaselines i cp :: rest.steps
        checkpoints :=
          match cp with
          | some c => c :: rest.checkpoints
          | none => rest.checkpoints }

/-- Embedding of `ScenarioRunner.runTestCase` on a scenario of `numSteps`
steps. -/
def runTestCase (numSteps : ℕ) (exec : ℕ → Except String (Option CheckpointResult))
    (updateBaselines : Bool) : TestCaseResult :=
  runStepsFrom exec updateBaselines 0 numSteps

lemma runStepsFrom_ok_eq (exec : ℕ → Except String (Option CheckpointResult))
    (upd : Bool) (cps : ℕ → Option CheckpointResult) :
    ∀ n s, (∀ j, j < n → exec (s + j) = .ok (cps (s + j))) →
      runStepsFrom exec upd s n =
        { success := (List.range n).all fun j => stepSuccessOf upd (cps (s + j))
          steps := (List.range n).map fun j => okStepResult upd (s + j) (cps (s + j))
          checkpoints := (List.range n).filterMap fun j => cps (s + j) } := by
  intro n
  induction n with
  | zero => intro s _; simp [runStepsFrom]
  | succ n ih =>
    intro s hok
    have h0 : exec s = .ok (cps s) := by simpa using hok 0 (Nat.succ_pos n)
    have hrest := ih (s + 1) fun j hj => by
      have := hok (j + 1) (by omega)
      have harith : s + (j + 1) = s + 1 + j := by omega
      rwa [harith] at this
    have harith : ∀ j : ℕ, s + 1 + j = s + (j + 1) := fun j => by omega
    simp only [runStepsFrom, h0, hrest, harith, List.range_succ_eq_map, List.all_cons,
      List.all_map, List.map_cons, List.map_map, List.filterMap_cons, Function.comp_def,
      Nat.add_zero, Nat.succ_eq_add_one]
    cases hc : cps s <;> simp [hc, Function.comp_def]

lemma runStepsFrom_err_eq (exec : ℕ → Except String (Option CheckpointResult))
    (upd : Bool) (cps : ℕ → Option CheckpointResult) (msg : String) :
    ∀ k n s, k < n → (∀ j, j < k → exec (s + j) = .ok (cps (s + j))) →
      exec (s + k) = .error msg →
      runStepsFrom exec upd s n =
        { success := false
          steps := ((List.range k).map fun j => okStepResult upd (s + j) (cps (s + j))) ++
            [{ stepIndex := s + k, success := false, error := some msg, checkpoint := none }]
          checkpoints := (List.range k).filterMap fun j => cps (s + j) } := by
  intro k
  induction k with
  | zero =>
    intro n s hn _ herr
    match n, hn with
    | n + 1, _ =>
      simp only [Nat.add_zero] at herr
      simp [runStepsFrom, herr]
  | succ k ih =>
    intro n s hn hok herr
    match n, hn with
    | n + 1, hn =>
      have h0 : exec s = .ok (cps s) := by simpa using hok 0 (Nat.succ_pos k)
      have hrest := ih n (s + 1) (by omega)
        (fun j hj => by
          have := hok (j + 1) (by omega)
          have harith : s + (j + 1) = s + 1 + j := by omega
          rwa [harith] at this)
        (by
          have harith : s + (k + 1) = s + 1 + k := by omega
          rwa [harith] at herr)
      have harith : ∀ j : ℕ, s + 1 + j = s + (j + 1) := fun j => by omega
      simp only [runStepsFrom, h0, hrest, harith, List.range_succ_eq_map, List.map_cons,
        List.map_map, List.cons_append, List.filterMap_cons, Function.comp_def, Nat.add_zero,
        Bool.and_false, Nat.succ_eq_add_one]
      cases hc : cps s <;> simp [hc, Function.comp_def]

/-- C4: when executing step `k` throws while all earlier steps succeeded,
`runTestCase` records the failed `StepResult` carrying the error message,
marks the test case failed, executes no further step (exactly `k + 1`
`StepResult`s for a scenario of `n > k` steps), and retains the
`StepResult`s and `CheckpointResult`s of the earlier steps. -/
theorem runTestCase_failfast (n k : ℕ) (msg : String) (upd : Bool)
    (exec : ℕ → Except String (Option CheckpointResult))
    (cps : ℕ → Option CheckpointResult)
    (hk : k < n) (hok : ∀ j, j < k → exec j = .ok (cps j))
    (herr : exec k = .error msg) :
    runTestCase n exec upd =
      { success := false
        steps := ((List.range k).map fun j => okStepResult upd j (cps j)) ++
          [{ stepIndex := k, success := false, error := some msg, checkpoint := none }]
        checkpoints := (List.range k).filterMap cps } ∧
    (runTestCase n exec upd).steps.length = k + 1 := by
  have h := runStepsFrom_err_eq exec upd cps msg k n 0 hk
    (fun j hj => by simpa using hok j hj) (by simpa using herr)
  simp only [Nat.zero_add] at h
  refine ⟨h, ?_⟩
  simp [runTestCase] at h ⊢
  rw [h]
  simp

/-- Witness for C4: a 5-step scenario whose step at index 2 (the third step)
throws yields exactly 3 step results. -/
theorem runTestCase_failfast_witness :
    runTestCase 5 (fun i => if i = 2 then .error "boom" else .ok none) false =
      { success := false
        steps := ((List.range 2).map fun j => okStepResult false j ((fun _ => none) j)) ++
          [{ stepIndex := 2, success := false, error := some "boom", checkpoint := none }]
        checkpoints := (List.range 2).filterMap fun _ => none } ∧
    (runTestCase 5 (fun i => if i = 2 then .error "boom" else .ok none) false).steps.length =
      2 + 1 :=
  runTestCase_failfast 5 2 "boom" false
    (fun i => if i = 2 then .error "boom" else .ok none) (fun _ => none)
    (by omega) (fun j hj => by interval_cases j <;> rfl) (by rfl)

/-- C10: when no step throws, every step is executed and recorded (no halt on
a checkpoint mismatch); a step whose checkpoint does not match (update mode
off) is recorded as failed; and the final success flag is the conjunction of
all step successes and all checkpoint matches. -/
theorem runTestCase_mismatch_no_halt (n : ℕ)
    (exec : ℕ → Except String (Option CheckpointResult))
    (cps : ℕ → Option CheckpointResult)
    (hok : ∀ i, i < n → exec i = .ok (cps i)) :
    (runTestCase n exec false).steps =
      ((List.range n).map fun i => okStepResult false i (cps i)) ∧
    (runTestCase n exec false).steps.length = n ∧
    (runTestCase n exec false).checkpoints = (List.range n).filterMap cps ∧
    (∀ i, i < n → ∀ c, cps i = some c → c.«match» = false →
      { stepIndex := i, success := false, error := none,
        checkpoint := some c : StepResult } ∈ (runTestCase n exec false).steps ∧
      (runTestCase n exec false).success = false) ∧
    ((runTestCase n exec false).success = true ↔
      (∀ sr ∈ (runTestCase n exec false).steps, sr.success = true) ∧
      (∀ c ∈ (runTestCase n exec false).checkpoints, c.«match» = true)) := by
  have h := runStepsFrom_ok_eq exec false cps n 0 fun j hj => by simpa using hok j hj
  simp only [Nat.zero_add] at h
  have hrun : runTestCase n exec false = _ := h
  refine ⟨by rw [hrun], by rw [hrun]; simp, by rw [hrun], ?_, ?_⟩
  · intro i hi c hc hm
    constructor
    · rw [hrun]
      simp only [List.mem_map]
      exact ⟨i, by simpa using hi, by simp [okStepResult, stepSuccessOf, hc, hm]⟩
    · rw [hrun]
      simp only [List.all_eq_true, List.mem_range, not_forall, Bool.not_eq_true] at *
      have : ¬ ∀ j ∈ List.range n, stepSuccessOf false (cps j) = true := by
        intro hall
        have := hall i (List.mem_range.mpr hi)
        simp [stepSuccessOf, hc, hm] at this
      simpa [List.all_eq_true] using this
  · rw [hrun]
    simp only [List.all_eq_true, List.mem_range, List.mem_map, List.mem_filterMap,
      forall_exists_index, and_imp]
    constructor
    · intro hall
      refine ⟨?_, ?_⟩
      · rintro sr i hi rfl
        simp [okStepResult, hall i hi]
      · intro c i hi hc
        have := hall i hi
        simp only [stepSuccessOf, hc, Bool.or_false] at this
        exact this
    · rintro ⟨-, hcps⟩ i hi
      cases hc : cps i with
      | none => simp [stepSuccessOf]
      | some c =>
        have := hcps c i hi hc
        simp [stepSuccessOf, hc, this]

/-- Concrete data for the C10 witness: one plain step followed by a step
whose checkpoint does not match. -/
def mismatchCp : CheckpointResult :=
  { name := "cp", «match» := false, differencePercent := 100
    baselinePath := "b", actualPath := "a" }

def mismatchExec : ℕ → Except String (Option CheckpointResult) :=
  fun i => if i = 0 then .ok none else .ok (some mismatchCp)

def mismatchCps : ℕ → Option CheckpointResult :=
  fun i => if i = 0 then none else some mismatchCp

/-- Witness for C10: a 2-step scenario whose second step produces a
non-matching checkpoint still records both steps. -/
theorem runTestCase_mismatch_no_halt_witness :
    (runTestCase 2 mismatchExec false).steps =
      ((List.range 2).map fun i => okStepResult false i (mismatchCps i)) ∧
    (runTestCase 2 mismatchExec false).steps.length = 2 ∧
    (runTestCase 2 mismatchExec false).checkpoints = (List.range 2).filterMap mismatchCps ∧
    (∀ i, i < 2 → ∀ c, mismatchCps i = some c → c.«match» = false →
      { stepIndex := i, success := false, error := none,
        checkpoint := some c : StepResult } ∈ (runTestCase 2 mismatchExec false).steps ∧
      (runTestCase 2 mismatchExec false).success = false) ∧
    ((runTestCase 2 mismatchExec false).success = true ↔
      (∀ sr ∈ (runTestCase 2 mismatchExec false).steps, sr.success = true) ∧
      (∀ c ∈ (runTestCase 2 mismatchExec false).checkpoints, c.«match» = true)) :=
  runTestCase_mismatch_no_halt 2 mismatchExec mismatchCps
    (fun i hi => by interval_cases i <;> rfl)

/-!
File-system state for the checkpoint step and baseline updating: a partial
map from paths to file contents (file contents abstracted as `String`,
standing for the raw bytes). -/

/-- On-disk state: path to file bytes. -/
def FileSystem : Type := String → Option String

/-- A whole-file write (`simctl screenshot`, `sharp.toFile`, `writeFile`). -/
def writeFile (fs : FileSystem) (path content : String) : FileSystem :=
  fun p => if p = path then some content else fs p

/-- Embedding of `ImageDiffer.updateBaseline`: a whole-file copy of the
screenshot over the baseline path (`copyFile`). -/
def updateBaseline (fs : FileSystem) (screenshotPath baselinePath : String) : FileSystem :=
  fun p => if p = baselinePath then fs screenshotPath else fs p

/-- Path join as used by the runner: `join(dir, name)`. -/
def joinPath (dir name : String) : String := dir ++ "/" ++ name

/-- Embedding of the `case 'checkpoint'` branch of `ScenarioRunner.executeStep`:
screenshot to the actual path (`captured` being the captured image bytes),
then either adopt the capture as the new baseline (update mode), or report a
guaranteed mismatch when the baseline is absent, or decode and compare.
Returns the `CheckpointResult` together with the resulting file system. -/
def executeCheckpoint (fs : FileSystem) (name captured screenshotsDir baselinesDir : String)
    (updateBaselines : Bool) (tolerance : ℚ)
    (decode : String → Except String RawImage) :
    Except String (CheckpointResult × FileSystem) :=
  let actualPath := joinPath screenshotsDir (name ++ ".png")
  let baselinePath := joinPath baselinesDir (name ++ ".png")
  let fs1 := writeFile fs actualPath captured
  if updateBaselines then
    .ok ({ name := name, «match» := true, differencePercent := 0
           baselinePath := baselinePath, actualPath := actualPath },
         updateBaseline fs1 actualPath baselinePath)
  else
    match fs1 baselinePath with
    | none =>
      .ok ({ name := name, «match» := false, differencePercent := 100
             baselinePath := baselinePath, actualPath := actualPath }, fs1)
    | some baselineContent => do
      let r ← compare (decode captured) true (decode baselineContent) tolerance true
      .ok ({ name := name, «match» := r.«match», differencePercent := r.differenceRatio * 100
             baselinePath := baselinePath, actualPath := actualPath }, fs1)

/-- C5: a checkpoint step run with baseline-update mode enabled yields
`match = true` and `differencePercent = 0`, and the captured image is copied
whole-file over the baseline path, so afterwards the baseline file exists
and holds exactly the captured bytes, overwriting whatever baseline was
there before (the prior file system is arbitrary). -/
theorem checkpoint_update_mode (fs : FileSystem) (name captured sDir bDir : String)
    (t : ℚ) (decode : String → Except String RawImage) :
    ∃ fs' : FileSystem,
      executeCheckpoint fs name captured sDir bDir true t decode =
        .ok ({ name := name, «match» := true, differencePercent := 0
               baselinePath := joinPath bDir (name ++ ".png")
               actualPath := joinPath sDir (name ++ ".png") }, fs') ∧
      fs' (joinPath bDir (name ++ ".png")) = some captured := by
  refine ⟨_, rfl, ?_⟩
  simp [executeCheckpoint, updateBaseline, writeFile]

/-!
Full-page capture loop of the `case 'full_page_checkpoint'` branch.  The
capture source `f` gives the raw bytes (base64) of the `i`-th screenshot
taken; capture 0 is the pre-scroll segment.  The loop keeps every capture
whose bytes differ from the previous one, stops (discarding the duplicate)
at the first byte-identical capture, and runs `scrollCount` from 1 while
`scrollCount < maxScrolls`; `fuel = maxScrolls - scrollCount` decreases at
every kept segment. -/

/-- One run of the scroll-capture `while` loop: returns the number of
captures taken inside the loop and the indices of the kept segments. -/
def capGo (f : ℕ → String) (prev : String) (scrollCount fuel : ℕ) : ℕ × List ℕ :=
  match fuel with
  | 0 => (0, [])
  | fuel + 1 =>
    let cur := f scrollCount
    if cur = prev then (1, [])
    else
      let r := capGo f cur (scrollCount + 1) fuel
      (r.1 + 1, scrollCount :: r.2)

/-- The capture phase of `full_page_checkpoint`: the initial segment is
captured unconditionally (`scrollCount = 1` afterwards), then the scroll
loop runs.  Returns (total number of captures, kept segment indices). -/
def fullPageCaptureLoop (f : ℕ → String) (maxScrolls : ℕ) : ℕ × List ℕ :=
  let r := capGo f (f 0) 1 (maxScrolls - 1)
  (r.1 + 1, 0 :: r.2)

lemma capGo_fst_le (f : ℕ → String) :
    ∀ fuel prev scrollCount, (capGo f prev scrollCount fuel).1 ≤ fuel := by
  intro fuel
  induction fuel with
  | zero => intro prev s; simp [capGo]
  | succ fuel ih =>
    intro prev s
    simp only [capGo]
    split
    · simp
    · have := ih (f s) (s + 1)
      simp only []
      omega

lemma capGo_dup_eq (f : ℕ → String) :
    ∀ (d s fuel : ℕ), 1 ≤ s → d < fuel →
      (∀ i, s ≤ i → i < s + d → f i ≠ f (i - 1)) →
      f (s + d) = f (s + d - 1) →
      capGo f (f (s - 1)) s fuel = (d + 1, (List.range d).map (s + ·)) := by
  intro d
  induction d with
  | zero =>
    intro s fuel hs hfuel _ hdup
    match fuel, hfuel with
    | fuel + 1, _ =>
      simp only [Nat.add_zero] at hdup
      simp [capGo, hdup]
  | succ d ih =>
    intro s fuel hs hfuel hne hdup
    match fuel, hfuel with
    | fuel + 1, hfuel =>
      have hcur : f s ≠ f (s - 1) := by
        have := hne s (le_refl s) (by omega)
        simpa using this
      have hrec := ih (s + 1) fuel (by omega) (by omega)
        (fun i hi hi' => hne i (by omega) (by omega))
        (by
          have h1 : s + 1 + d = s + (d + 1) := by omega
          rw [h1]
          exact hdup)
      have hprev : f (s + 1 - 1) = f s := by norm_num
      rw [hprev] at hrec
      simp only [capGo, hcur, if_false, hrec]
      refine Prod.ext (by simp) ?_
      simp only [List.range_succ_eq_map, List.map_cons, List.map_map]
      refine congrArg₂ List.cons (by omega) ?_
      apply List.map_congr_left
      intro j _
      simp only [Function.comp_apply, Nat.succ_eq_add_one]
      omega

/-- C6 (amended): when the capture source first repeats at capture `k`
(captures `1..k-1` differ from their predecessors and capture `k` equals
capture `k-1`) and `k + 1 ≤ maxScrolls`, the loop takes exactly `k + 1`
captures and keeps exactly the `k` segments `0..k-1`; and in general the
total number of captures never exceeds `max maxScrolls 1` (so the loop
always terminates), the bound being exactly `maxScrolls` whenever
`maxScrolls ≥ 1`. -/
theorem fullPageCaptureLoop_spec (f : ℕ → String) (k maxScrolls : ℕ)
    (hk : 1 ≤ k) (hmax : k + 1 ≤ maxScrolls)
    (hne : ∀ i, 1 ≤ i → i < k → f i ≠ f (i - 1))
    (hdup : f k = f (k - 1)) :
    (fullPageCaptureLoop f maxScrolls).1 = k + 1 ∧
    (fullPageCaptureLoop f maxScrolls).2 = List.range k ∧
    (fullPageCaptureLoop f maxScrolls).2.length = k ∧
    (∀ (g : ℕ → String) (m : ℕ), (fullPageCaptureLoop g m).1 ≤ max m 1) := by
  have hcap := capGo_dup_eq f (k - 1) 1 (maxScrolls - 1) (le_refl 1) (by omega)
    (fun i hi hi' => hne i hi (by omega))
    (by
      have h1 : 1 + (k - 1) = k := by omega
      rw [h1]
      exact hdup)
  have hprev : (1 : ℕ) - 1 = 0 := rfl
  rw [hprev] at hcap
  have hlist : (0 : ℕ) :: (List.range (k - 1)).map (1 + ·) = List.range k := by
    have hk' : k = (k - 1) + 1 := by omega
    rw [hk', List.range_succ_eq_map]
    refine congrArg₂ List.cons rfl ?_
    apply List.map_congr_left
    intro j _
    omega
  refine ⟨?_, ?_, ?_, ?_⟩
  · simp [fullPageCaptureLoop, hcap]
    omega
  · simp only [fullPageCaptureLoop, hcap]
    exact hlist
  · simp only [fullPageCaptureLoop, hcap]
    rw [hlist]
    simp
  · intro g m
    have := capGo_fst_le g (m - 1) (g 0) 1
    simp only [fullPageCaptureLoop]
    omega

/-- Witness for C6: a source producing `a, b, b, ...` first repeats at
capture 2; with `maxScrolls = 3` the loop takes 3 captures and keeps
segments 0 and 1. -/
theorem fullPageCaptureLoop_spec_witness :
    (fullPageCaptureLoop (fun i => if i = 0 then "a" else "b") 3).1 = 2 + 1 ∧
    (fullPageCaptureLoop (fun i => if i = 0 then "a" else "b") 3).2 = List.range 2 ∧
    (fullPageCaptureLoop (fun i => if i = 0 then "a" else "b") 3).2.length = 2 ∧
    (∀ (g : ℕ → String) (m : ℕ), (fullPageCaptureLoop g m).1 ≤ max m 1) :=
  fullPageCaptureLoop_spec (fun i => if i = 0 then "a" else "b") 2 3
    (by omega) (by omega)
    (fun i hi hi' => by interval_cases i; simp)
    (by simp)

/-- C6 counterexample to the claim as stated: with `maxScrolls = 0` the
driver still takes the initial capture, so the capture count 1 exceeds the
ceiling 0 — `maxScrolls` does not bound the number of captures in every
case. -/
theorem fullPageCaptureLoop_zero_ceiling :
    (fullPageCaptureLoop (fun _ => "a") 0).1 = 1 ∧
    ¬ (fullPageCaptureLoop (fun _ => "a") 0).1 ≤ 0 := by
  constructor
  · rfl
  · intro h
    simp [fullPageCaptureLoop, capGo] at h

/-!
Stitcher (`ImageDiffer.stitchVertically`).  Decoded images are pixel grids;
the composite operation list the code builds (`{input, top, left:0}` with
`top` the running sum of prior heights) is interpreted by a model of the
image library's `composite`: overlays painted in order onto the canvas,
later overlays over earlier ones (screenshot segments are fully opaque, so
source-over composition is plain replacement inside the overlay extent). -/

/-- One RGBA pixel. -/
structure Pixel where
  r : ℕ
  g : ℕ
  b : ℕ
  a : ℕ
  deriving DecidableEq, Repr

/-- The canvas background the code requests: `{r: 255, g: 255, b: 255, alpha: 1}`. -/
def whitePixel : Pixel := { r := 255, g := 255, b := 255, a := 255 }

/-- A decoded image as a pixel grid. -/
structure Image where
  width : ℕ
  height : ℕ
  pix : ℕ → ℕ → Pixel

/-- One entry of the `compositeOps` array: `{ input, top, left }`. -/
structure OverlayOp where
  input : Image
  top : ℕ
  left : ℕ

/-- Painting one opaque overlay onto a canvas. -/
def applyOverlay (canvas : Image) (op : OverlayOp) : Image :=
  { width := canvas.width
    height := canvas.height
    pix := fun x y =>
      if op.left ≤ x ∧ x < op.left + op.input.width ∧
          op.top ≤ y ∧ y < op.top + op.input.height then
        op.input.pix (x - op.left) (y - op.top)
      else canvas.pix x y }

/-- Model of the library `composite`: overlays applied in list order. -/
def composite (canvas : Image) (ops : List OverlayOp) : Image :=
  ops.foldl applyOverlay canvas

/-- The blank canvas `sharp({create: {width, height, channels: 4, background}})`. -/
def blankCanvas (w h : ℕ) (bg : Pixel) : Image :=
  { width := w, height := h, pix := fun _ _ => bg }

/-- The `compositeOps` loop: segment `i` is placed at `left = 0` and
`top = currentY`, with `currentY` advancing by each segment's height. -/
def stitchOps : List Image → ℕ → List OverlayOp
  | [], _ => []
  | im :: rest, y => { input := im, top := y, left := 0 } :: stitchOps rest (y + im.height)

/-- Vertical offset of segment `i`: the sum of the heights of the segments
before it. -/
def stitchOffset (segs : List Image) (i : ℕ) : ℕ :=
  ((segs.take i).map Image.height).sum

/-- Output of `stitchVertically`: a single segment is copied byte-for-byte
to the output path (`copyFile`, no composition), several segments are
composited. -/
inductive StitchResult where
  | copied (seg : Image)
  | composed (img : Image)

/-- Embedding of `ImageDiffer.stitchVertically`: empty input throws, a
single segment is a direct file copy, otherwise the canvas takes the first
segment's width and the summed height and the segments are composited at
running vertical offsets. -/
def stitchVertically (segs : List Image) : Except String StitchResult :=
  match segs with
  | [] => .error "No images to stitch"
  | [single] => .ok (.copied single)
  | segs =>
    let width := ((segs.head?).map Image.width).getD 0
    let totalHeight := (segs.map Image.height).sum
    .ok (.composed (composite (blankCanvas width totalHeight whitePixel) (stitchOps segs 0)))

lemma applyOverlay_width (canvas : Image) (op : OverlayOp) :
    (applyOverlay canvas op).width = canvas.width := rfl

lemma composite_width (ops : List OverlayOp) :
    ∀ canvas, (composite canvas ops).width = canvas.width := by
  induction ops with
  | nil => intro canvas; rfl
  | cons op rest ih =>
    intro canvas
    simpa [composite, List.foldl_cons] using ih (applyOverlay canvas op)

lemma composite_height (ops : List OverlayOp) :
    ∀ canvas, (composite canvas ops).height = canvas.height := by
  induction ops with
  | nil => intro canvas; rfl
  | cons op rest ih =>
    intro canvas
    simpa [composite, List.foldl_cons] using ih (applyOverlay canvas op)

lemma composite_pix_below (segs : List Image) :
    ∀ (canvas : Image) (y0 x y : ℕ), y < y0 →
      (composite canvas (stitchOps segs y0)).pix x y = canvas.pix x y := by
  induction segs with
  | nil => intro canvas y0 x y _; rfl
  | cons s rest ih =>
    intro canvas y0 x y hy
    simp only [stitchOps, composite, List.foldl_cons]
    have := ih (applyOverlay canvas { input := s, top := y0, left := 0 }) (y0 + s.height)
      x y (by omega)
    simp only [composite] at this
    rw [this]
    simp only [applyOverlay]
    rw [if_neg (by omega)]

lemma composite_pix_right (segs : List Image) (W : ℕ) (hW : ∀ s ∈ segs, s.width = W) :
    ∀ (canvas : Image) (y0 x y : ℕ), W ≤ x →
      (composite canvas (stitchOps segs y0)).pix x y = canvas.pix x y := by
  induction segs with
  | nil => intro canvas y0 x y _; rfl
  | cons s rest ih =>
    intro canvas y0 x y hx
    have hsW : s.width = W := hW s (by simp)
    simp only [stitchOps, composite, List.foldl_cons]
    have := ih (fun u hu => hW u (by simp [hu]))
      (applyOverlay canvas { input := s, top := y0, left := 0 }) (y0 + s.height) x y hx
    simp only [composite] at this
    rw [this]
    simp only [applyOverlay]
    rw [if_neg (by omega)]

lemma composite_stitch_pix (segs : List Image) :
    ∀ (canvas : Image) (y0 i : ℕ) (hi : i < segs.length) (x y : ℕ),
      x < (segs.get ⟨i, hi⟩).width → y < (segs.get ⟨i, hi⟩).height →
      (composite canvas (stitchOps segs y0)).pix x (y0 + stitchOffset segs i + y) =
        (segs.get ⟨i, hi⟩).pix x y := by
  induction segs with
  | nil => intro canvas y0 i hi; exact absurd hi (by simp)
  | cons s rest ih =>
    intro canvas y0 i hi x y hx hy
    cases i with
    | zero =>
      simp only [List.get] at hx hy ⊢
      have hoff : stitchOffset (s :: rest) 0 = 0 := rfl
      rw [hoff]
      simp only [stitchOps, composite, List.foldl_cons]
      have hbelow := composite_pix_below rest
        (applyOverlay canvas { input := s, top := y0, left := 0 }) (y0 + s.height)
        x (y0 + 0 + y) (by omega)
      simp only [composite] at hbelow
      rw [hbelow]
      simp only [applyOverlay]
      rw [if_pos (by omega)]
      congr 1
      omega
    | succ i =>
      have hoff : stitchOffset (s :: rest) (i + 1) = s.height + stitchOffset rest i := by
        simp [stitchOffset, List.take_succ_cons]
      rw [hoff]
      simp only [stitchOps, composite, List.foldl_cons]
      have hrec := ih (applyOverlay canvas { input := s, top := y0, left := 0 })
        (y0 + s.height) i (by simpa using hi) x y (by simpa using hx) (by simpa using hy)
      simp only [composite] at hrec
      have harith : y0 + (s.height + stitchOffset rest i) + y =
          y0 + s.height + stitchOffset rest i + y := by omega
      rw [harith, hrec]
      rfl

/-- C7: stitching an ordered list of at least two segments, all of the first
segment's width `W`, composes an image of width `W` and height the sum of
the segment heights, in which segment `i` appears left-aligned at vertical
offset equal to the sum of the prior segments' heights (in input order),
while columns beyond `W` keep the opaque white canvas; stitching a single
segment is a direct byte-identical copy with no composition work. -/
theorem stitchVertically_spec (segs : List Image) (W : ℕ)
    (h2 : 2 ≤ segs.length) (hW : ∀ s ∈ segs, s.width = W) :
    (∃ out, stitchVertically segs = .ok (.composed out) ∧
      out.width = W ∧
      out.height = (segs.map Image.height).sum ∧
      (∀ (i : ℕ) (hi : i < segs.length) (x y : ℕ),
        x < W → y < (segs.get ⟨i, hi⟩).height →
        out.pix x (stitchOffset segs i + y) = (segs.get ⟨i, hi⟩).pix x y) ∧
      (∀ x y : ℕ, W ≤ x → out.pix x y = whitePixel)) ∧
    (∀ s : Image, stitchVertically [s] = .ok (.copied s)) := by
  constructor
  · match segs, h2 with
    | a :: b :: rest, _ =>
      refine ⟨_, rfl, ?_, ?_, ?_, ?_⟩
      · rw [composite_width]
        exact (hW a (by simp)).symm ▸ rfl
      · rw [composite_height]
        rfl
      · intro i hi x y hx hy
        have hxw : x < ((a :: b :: rest).get ⟨i, hi⟩).width := by
          rw [hW _ (List.get_mem _ _ hi)]
          exact hx
        have := composite_stitch_pix (a :: b :: rest)
          (blankCanvas (((a :: b :: rest).head?.map Image.width).getD 0)
            (((a :: b :: rest).map Image.height).sum) whitePixel)
          0 i hi x y hxw hy
        simpa using this
      · intro x y hx
        have := composite_pix_right (a :: b :: rest) W hW
          (blankCanvas (((a :: b :: rest).head?.map Image.width).getD 0)
            (((a :: b :: rest).map Image.height).sum) whitePixel)
          0 x y hx
        simpa [blankCanvas] using this
  · intro s
    rfl

/-- Concrete segments for the C7 witness. -/
def segA : Image := { width := 1, height := 1, pix := fun _ _ => { r := 0, g := 0, b := 0, a := 255 } }

def segB : Image := { width := 1, height := 2, pix := fun _ _ => { r := 1, g := 2, b := 3, a := 255 } }

/-- Witness for C7: two 1-pixel-wide segments of heights 1 and 2. -/
theorem stitchVertically_spec_witness :
    (∃ out, stitchVertically [segA, segB] = .ok (.composed out) ∧
      out.width = 1 ∧
      out.height = ([segA, segB].map Image.height).sum ∧
      (∀ (i : ℕ) (hi : i < ([segA, segB] : List Image).length) (x y : ℕ),
        x < 1 → y < (([segA, segB] : List Image).get ⟨i, hi⟩).height →
        out.pix x (stitchOffset [segA, segB] i + y) =
          (([segA, segB] : List Image).get ⟨i, hi⟩).pix x y) ∧
      (∀ x y : ℕ, 1 ≤ x → out.pix x y = whitePixel)) ∧
    (∀ s : Image, stitchVertically [s] = .ok (.copied s)) :=
  stitchVertically_spec [segA, segB] 1 (by simp)
    (fun s hs => by
      rcases List.mem_cons.mp hs with rfl | hs'
      · rfl
      · rcases List.mem_cons.mp hs' with rfl | hs''
        · rfl
        · exact absurd hs'' (List.not_mem_nil s))

/-!
Overlap detector (`ImageDiffer.findOverlap`).  Positions are embedded as
`ℤ`; the JavaScript computes `stripHeight / 2` with real division, which
coincides with integer division exactly when `stripHeight` is even (the
default 50 and every caller satisfy this; the theorems carry a
`2 ∣ stripHeight` hypothesis for faithfulness).  `Math.round` on the
offset is the identity because the offset is an integer difference. -/

/-- One pixel of the strip comparison: RGB channels (alpha skipped) must
each differ by at most 5 (anti-aliasing tolerance).  Both index computations
use the previous image's `width`/`channels`, exactly as the destructured
code does. -/
def stripPixelMatch (prev curr : RawImage) (prevY currY x : ℕ) : Bool :=
  (List.range (min prev.channels 3)).all fun c =>
    decide (((prev.data ((prevY * prev.width + x) * prev.channels + c) : ℤ) -
      (curr.data ((currY * prev.width + x) * prev.channels + c) : ℤ)).natAbs ≤ 5)

/-- Matching pixels of one strip row. -/
def stripRowMatchCount (prev curr : RawImage) (prevY currY : ℕ) : ℕ :=
  ((List.range prev.width).filter fun x => stripPixelMatch prev curr prevY currY x).length

/-- Similarity of the strip (anchored at `stripStartY` in the previous
image) against position `searchY` of the current image: matching pixels
over total strip pixels. -/
def stripSimilarity (prev curr : RawImage) (stripStartY searchY stripHeight : ℕ) : ℚ :=
  let matching := ((List.range stripHeight).map fun y =>
    stripRowMatchCount prev curr (stripStartY + y) (searchY + y)).sum
  let total := stripHeight * prev.width
  (matching : ℚ) / (total : ℚ)

/-- The candidate-row search loop: keep the strictly best similarity seen so
far (ties keep the earlier row), and exit early once a row exceeds 0.98. -/
def searchLoop (prev curr : RawImage) (stripStartY stripHeight : ℕ)
    (best : ℚ × ℕ) (searchY fuel : ℕ) : ℚ × ℕ :=
  match fuel with
  | 0 => best
  | fuel + 1 =>
    let sim := stripSimilarity prev curr stripStartY searchY stripHeight
    let best' := if best.1 < sim then (sim, searchY) else best
    if (98 : ℚ) / 100 < sim then best'
    else searchLoop prev curr stripStartY stripHeight best' (searchY + 1) fuel

/-- Result record of `findOverlap`. -/
structure OverlapResult where
  offset : ℤ
  confidence : ℚ
  matchPosition : ℕ
  deriving DecidableEq, Repr

/-- The strip anchor `stripStartY = height - STRIP_FROM_BOTTOM - stripHeight / 2`
with `STRIP_FROM_BOTTOM = 200`. -/
def overlapStripStartY (prev : RawImage) (stripHeight : ℕ) : ℤ :=
  (prev.height : ℤ) - 200 - (stripHeight : ℤ) / 2

/-- Where the strip should appear in the current image after a scroll of
`scrollDistancePixels`. -/
def expectedPositionInCurrent (prev : RawImage) (stripHeight : ℕ) (scroll : ℤ) : ℤ :=
  overlapStripStartY prev stripHeight - scroll

/-- Lower end of the searched window. -/
def overlapSearchStart (prev : RawImage) (stripHeight searchRange : ℕ) (scroll : ℤ) : ℤ :=
  max 0 (expectedPositionInCurrent prev stripHeight scroll - (searchRange : ℤ))

/-- Upper end of the searched window. -/
def overlapSearchEnd (prev curr : RawImage) (stripHeight searchRange : ℕ) (scroll : ℤ) : ℤ :=
  min ((curr.height : ℤ) - (stripHeight : ℤ))
    (expectedPositionInCurrent prev stripHeight scroll + (searchRange : ℤ))

/-- Embedding of `ImageDiffer.findOverlap`: bounds checks short-circuit to a
zero result, otherwise the searched window around the expected position is
scanned and `offset = expectedPosition - bestMatchPosition` is returned with
the best similarity and matched row. -/
def findOverlap (prev curr : RawImage) (scrollDistancePixels : ℤ)
    (stripHeight searchRange : ℕ) : OverlapResult :=
  let sY := overlapStripStartY prev stripHeight
  if sY < 0 ∨ (prev.height : ℤ) < sY + (stripHeight : ℤ) then
    { offset := 0, confidence := 0, matchPosition := 0 }
  else
    let expected := expectedPositionInCurrent prev stripHeight scrollDistancePixels
    if expected < 0 ∨ ((curr.height : ℤ) - (stripHeight : ℤ)) < expected then
      { offset := 0, confidence := 0, matchPosition := 0 }
    else
      let sStart := overlapSearchStart prev stripHeight searchRange scrollDistancePixels
      let sEnd := overlapSearchEnd prev curr stripHeight searchRange scrollDistancePixels
      let best := searchLoop prev curr sY.toNat stripHeight (0, 0) sStart.toNat
        (sEnd - sStart + 1).toNat
      { offset := expected - (best.2 : ℤ), confidence := best.1, matchPosition := best.2 }

/-- C9: whenever the strip anchor in the previous image or the expected strip
position in the current image falls outside the respective image bounds,
`findOverlap` short-circuits to `{offset := 0, confidence := 0,
matchPosition := 0}` (total function; no error is raised). -/
theorem findOverlap_out_of_bounds (prev curr : RawImage) (scroll : ℤ)
    (stripHeight searchRange : ℕ) (heven : 2 ∣ stripHeight)
    (h : overlapStripStartY prev stripHeight < 0 ∨
      (prev.height : ℤ) < overlapStripStartY prev stripHeight + (stripHeight : ℤ) ∨
      expectedPositionInCurrent prev stripHeight scroll < 0 ∨
      ((curr.height : ℤ) - (stripHeight : ℤ)) <
        expectedPositionInCurrent prev stripHeight scroll) :
    findOverlap prev curr scroll stripHeight searchRange =
      { offset := 0, confidence := 0, matchPosition := 0 } := by
  unfold findOverlap
  by_cases h1 : overlapStripStartY prev stripHeight < 0 ∨
      (prev.height : ℤ) < overlapStripStartY prev stripHeight + (stripHeight : ℤ)
  · rw [if_pos h1]
  · rw [if_neg h1]
    have h2 : expectedPositionInCurrent prev stripHeight scroll < 0 ∨
        ((curr.height : ℤ) - (stripHeight : ℤ)) <
          expectedPositionInCurrent prev stripHeight scroll := by
      tauto
    rw [if_pos h2]

/-- Witness for C9: a 10-pixel-tall previous image puts the 50-pixel strip
anchor at a negative row, so the result is all zeroes. -/
theorem findOverlap_out_of_bounds_witness :
    findOverlap ⟨1, 10, 3, fun _ => 0⟩ ⟨1, 10, 3, fun _ => 0⟩ 0 50 150 =
      { offset := 0, confidence := 0, matchPosition := 0 } :=
  findOverlap_out_of_bounds ⟨1, 10, 3, fun _ => 0⟩ ⟨1, 10, 3, fun _ => 0⟩ 0 50 150
    (by decide) (by left; decide)

lemma searchLoop_invariant (prev curr : RawImage) (s0 sh lo : ℕ) :
    ∀ (fuel cur : ℕ) (best : ℚ × ℕ), lo ≤ cur →
      (∀ y, lo ≤ y → y < cur → stripSimilarity prev curr s0 y sh ≤ best.1) →
      (0 < best.1 → best.1 = stripSimilarity prev curr s0 best.2 sh ∧
        lo ≤ best.2 ∧ best.2 < cur ∧
        ∀ y, lo ≤ y → y < best.2 → stripSimilarity prev curr s0 y sh < best.1) →
      best.1 ≤ (searchLoop prev curr s0 sh best cur fuel).1 ∧
      (0 < (searchLoop prev curr s0 sh best cur fuel).1 →
        (searchLoop prev curr s0 sh best cur fuel).1 =
          stripSimilarity prev curr s0 (searchLoop prev curr s0 sh best cur fuel).2 sh ∧
        lo ≤ (searchLoop prev curr s0 sh best cur fuel).2 ∧
        (searchLoop prev curr s0 sh best cur fuel).2 < cur + fuel ∧
        ∀ y, lo ≤ y → y < (searchLoop prev curr s0 sh best cur fuel).2 →
          stripSimilarity prev curr s0 y sh <
            (searchLoop prev curr s0 sh best cur fuel).1) := by
  intro fuel
  induction fuel with
  | zero =>
    intro cur best hlo hall hbest
    have hz : searchLoop prev curr s0 sh best cur 0 = best := rfl
    rw [hz]
    refine ⟨le_refl _, ?_⟩
    intro hpos
    obtain ⟨he, hl, hc, hy⟩ := hbest hpos
    exact ⟨he, hl, by omega, hy⟩
  | succ fuel ih =>
    intro cur best hlo hall hbest
    have hstep : searchLoop prev curr s0 sh best cur (fuel + 1) =
        (if (98 : ℚ) / 100 < stripSimilarity prev curr s0 cur sh then
          (if best.1 < stripSimilarity prev curr s0 cur sh
            then (stripSimilarity prev curr s0 cur sh, cur) else best)
        else searchLoop prev curr s0 sh
          (if best.1 < stripSimilarity prev curr s0 cur sh
            then (stripSimilarity prev curr s0 cur sh, cur) else best) (cur + 1) fuel) := rfl
    rw [hstep]
    by_cases hup : best.1 < stripSimilarity prev curr s0 cur sh
    · rw [if_pos hup]
      have hall' : ∀ y, lo ≤ y → y < cur + 1 →
          stripSimilarity prev curr s0 y sh ≤ stripSimilarity prev curr s0 cur sh := by
        intro y hy1 hy2
        rcases Nat.lt_succ_iff_lt_or_eq.mp hy2 with hy2 | rfl
        · exact le_of_lt (lt_of_le_of_lt (hall y hy1 hy2) hup)
        · exact le_refl _
      have hbest' : 0 < (stripSimilarity prev curr s0 cur sh, cur).1 →
          (stripSimilarity prev curr s0 cur sh, cur).1 =
            stripSimilarity prev curr s0 (stripSimilarity prev curr s0 cur sh, cur).2 sh ∧
          lo ≤ (stripSimilarity prev curr s0 cur sh, cur).2 ∧
          (stripSimilarity prev curr s0 cur sh, cur).2 < cur + 1 ∧
          ∀ y, lo ≤ y → y < (stripSimilarity prev curr s0 cur sh, cur).2 →
            stripSimilarity prev curr s0 y sh <
              (stripSimilarity prev curr s0 cur sh, cur).1 := by
        intro _
        exact ⟨rfl, hlo, by omega, fun y hy1 hy2 =>
          lt_of_le_of_lt (hall y hy1 hy2) hup⟩
      by_cases hexit : (98 : ℚ) / 100 < stripSimilarity prev curr s0 cur sh
      · rw [if_pos hexit]
        refine ⟨le_of_lt hup, ?_⟩
        intro hpos
        obtain ⟨he, hl, hc, hy⟩ := hbest' hpos
        exact ⟨he, hl, by omega, hy⟩
      · rw [if_neg hexit]
        have hrec := ih (cur + 1) (stripSimilarity prev curr s0 cur sh, cur) (by omega)
          hall' hbest'
        refine ⟨le_trans (le_of_lt hup) hrec.1, ?_⟩
        intro hpos
        obtain ⟨he, hl, hc, hy⟩ := hrec.2 hpos
        exact ⟨he, hl, by omega, hy⟩
    · rw [if_neg hup]
      push_neg at hup
      have hall' : ∀ y, lo ≤ y → y < cur + 1 →
          stripSimilarity prev curr s0 y sh ≤ best.1 := by
        intro y hy1 hy2
        rcases Nat.lt_succ_iff_lt_or_eq.mp hy2 with hy2 | rfl
        · exact hall y hy1 hy2
        · exact hup
      have hbest' : 0 < best.1 → best.1 = stripSimilarity prev curr s0 best.2 sh ∧
          lo ≤ best.2 ∧ best.2 < cur + 1 ∧
          ∀ y, lo ≤ y → y < best.2 → stripSimilarity prev curr s0 y sh < best.1 := by
        intro hpos
        obtain ⟨he, hl, hc, hy⟩ := hbest hpos
        exact ⟨he, hl, by omega, hy⟩
      by_cases hexit : (98 : ℚ) / 100 < stripSimilarity prev curr s0 cur sh
      · rw [if_pos hexit]
        refine ⟨le_refl _, ?_⟩
        intro hpos
        obtain ⟨he, hl, hc, hy⟩ := hbest hpos
        exact ⟨he, hl, by omega, hy⟩
      · rw [if_neg hexit]
        have hrec := ih (cur + 1) best (by omega) hall' hbest'
        refine ⟨hrec.1, ?_⟩
        intro hpos
        obtain ⟨he, hl, hc, hy⟩ := hrec.2 hpos
        exact ⟨he, hl, by omega, hy⟩

/-- C8: when the strip anchor and the expected position are both in bounds
and the search finds a positive best similarity, `findOverlap` returns
`offset = expectedPosition - matchPosition` (so a positive offset means the
found row sits above the expected one: the scroll under-shot and more
scrolling is needed, a negative one that it over-shot), `confidence` equal
to the best strip similarity — the similarity achieved at the matched row,
strictly above every earlier candidate row in the window — and
`matchPosition` the absolute matched row, which lies inside the searched
window. -/
theorem findOverlap_offset_spec (prev curr : RawImage) (scroll : ℤ)
    (stripHeight searchRange : ℕ) (heven : 2 ∣ stripHeight)
    (h1 : 0 ≤ overlapStripStartY prev stripHeight)
    (h2 : overlapStripStartY prev stripHeight + (stripHeight : ℤ) ≤ (prev.height : ℤ))
    (h3 : 0 ≤ expectedPositionInCurrent prev stripHeight scroll)
    (h4 : expectedPositionInCurrent prev stripHeight scroll ≤
      (curr.height : ℤ) - (stripHeight : ℤ))
    (hconf : 0 < (findOverlap prev curr scroll stripHeight searchRange).confidence) :
    (findOverlap prev curr scroll stripHeight searchRange).offset =
      expectedPositionInCurrent prev stripHeight scroll -
        ((findOverlap prev curr scroll stripHeight searchRange).matchPosition : ℤ) ∧
    (findOverlap prev curr scroll stripHeight searchRange).confidence =
      stripSimilarity prev curr (overlapStripStartY prev stripHeight).toNat
        (findOverlap prev curr scroll stripHeight searchRange).matchPosition stripHeight ∧
    overlapSearchStart prev stripHeight searchRange scroll ≤
      ((findOverlap prev curr scroll stripHeight searchRange).matchPosition : ℤ) ∧
    ((findOverlap prev curr scroll stripHeight searchRange).matchPosition : ℤ) ≤
      overlapSearchEnd prev curr stripHeight searchRange scroll ∧
    (∀ y : ℕ, overlapSearchStart prev stripHeight searchRange scroll ≤ (y : ℤ) →
      y < (findOverlap prev curr scroll stripHeight searchRange).matchPosition →
      stripSimilarity prev curr (overlapStripStartY prev stripHeight).toNat y stripHeight <
        (findOverlap prev curr scroll stripHeight searchRange).confidence) := by
  have hc1 : ¬ (overlapStripStartY prev stripHeight < 0 ∨
      (prev.height : ℤ) < overlapStripStartY prev stripHeight + (stripHeight : ℤ)) := by
    push_neg
    exact ⟨h1, h2⟩
  have hc2 : ¬ (expectedPositionInCurrent prev stripHeight scroll < 0 ∨
      ((curr.height : ℤ) - (stripHeight : ℤ)) <
        expectedPositionInCurrent prev stripHeight scroll) := by
    push_neg
    exact ⟨h3, h4⟩
  have hres : findOverlap prev curr scroll stripHeight searchRange =
      { offset := expectedPositionInCurrent prev stripHeight scroll -
          (((searchLoop prev curr (overlapStripStartY prev stripHeight).toNat stripHeight
            (0, 0) (overlapSearchStart prev stripHeight searchRange scroll).toNat
            ((overlapSearchEnd prev curr stripHeight searchRange scroll -
              overlapSearchStart prev stripHeight searchRange scroll + 1).toNat)).2 : ℕ) : ℤ)
        confidence := (searchLoop prev curr (overlapStripStartY prev stripHeight).toNat
          stripHeight (0, 0) (overlapSearchStart prev stripHeight searchRange scroll).toNat
          ((overlapSearchEnd prev curr stripHeight searchRange scroll -
            overlapSearchStart prev stripHeight searchRange scroll + 1).toNat)).1
        matchPosition := (searchLoop prev curr (overlapStripStartY prev stripHeight).toNat
          stripHeight (0, 0) (overlapSearchStart prev stripHeight searchRange scroll).toNat
          ((overlapSearchEnd prev curr stripHeight searchRange scroll -
            overlapSearchStart prev stripHeight searchRange scroll + 1).toNat)).2 } := by
    unfold findOverlap
    rw [if_neg hc1, if_neg hc2]
  set sStart := overlapSearchStart prev stripHeight searchRange scroll with hsStart
  set sEnd := overlapSearchEnd prev curr stripHeight searchRange scroll with hsEnd
  have hstart_nonneg : 0 ≤ sStart := le_max_left 0 _
  have hstart_le : sStart ≤ expectedPositionInCurrent prev stripHeight scroll := by
    rw [hsStart]
    unfold overlapSearchStart
    have : expectedPositionInCurrent prev stripHeight scroll - (searchRange : ℤ) ≤
        expectedPositionInCurrent prev stripHeight scroll := by
      have : (0 : ℤ) ≤ (searchRange : ℤ) := Int.ofNat_nonneg searchRange
      omega
    exact max_le h3 this
  have hend_ge : expectedPositionInCurrent prev stripHeight scroll ≤ sEnd := by
    rw [hsEnd]
    unfold overlapSearchEnd
    have : expectedPositionInCurrent prev stripHeight scroll ≤
        expectedPositionInCurrent prev stripHeight scroll + (searchRange : ℤ) := by
      have : (0 : ℤ) ≤ (searchRange : ℤ) := Int.ofNat_nonneg searchRange
      omega
    exact le_min h4 this
  have hwindow : sStart ≤ sEnd := le_trans hstart_le hend_ge
  have hinv := searchLoop_invariant prev curr (overlapStripStartY prev stripHeight).toNat
    stripHeight sStart.toNat ((sEnd - sStart + 1).toNat) sStart.toNat (0, 0)
    (le_refl _) (fun y hy1 hy2 => absurd hy2 (by omega))
    (fun hpos => absurd hpos (by norm_num))
  set b := searchLoop prev curr (overlapStripStartY prev stripHeight).toNat stripHeight
    (0, 0) sStart.toNat ((sEnd - sStart + 1).toNat) with hb
  have hposb : 0 < b.1 := by
    have : (findOverlap prev curr scroll stripHeight searchRange).confidence = b.1 := by
      rw [hres]
    rwa [this] at hconf
  obtain ⟨heq, hl, hlt, hy⟩ := hinv.2 hposb
  have hcast : (sStart.toNat : ℤ) = sStart := Int.toNat_of_nonneg hstart_nonneg
  have hfuel : ((sEnd - sStart + 1).toNat : ℤ) = sEnd - sStart + 1 :=
    Int.toNat_of_nonneg (by omega)
  refine ⟨by rw [hres], by rw [hres]; exact heq, ?_, ?_, ?_⟩
  · rw [hres]
    simp only
    omega
  · rw [hres]
    simp only
    omega
  · intro y hy1 hy2
    rw [hres] at hy2 ⊢
    simp only at hy2 ⊢
    exact hy y (by omega) hy2

/-- All-zero 1×203 RGB image for the C8 witness. -/
def img203 : RawImage := { width := 1, height := 203, channels := 3, data := fun _ => 0 }

lemma overlapWitness_sim : stripSimilarity img203 img203 2 0 2 = 1 := by
  show ((((List.range 2).map fun y =>
      stripRowMatchCount img203 img203 (2 + y) (0 + y)).sum : ℕ) : ℚ) /
    ((2 * img203.width : ℕ) : ℚ) = 1
  rw [show (((List.range 2).map fun y =>
      stripRowMatchCount img203 img203 (2 + y) (0 + y)).sum : ℕ) = 2 from by decide]
  norm_num [img203]

lemma overlapWitness_loop : searchLoop img203 img203 2 2 (0, 0) 0 3 = (1, 0) := by
  have hstep : searchLoop img203 img203 2 2 (0, 0) 0 3 =
      (if (98 : ℚ) / 100 < stripSimilarity img203 img203 2 0 2 then
        (if ((0 : ℚ), (0 : ℕ)).1 < stripSimilarity img203 img203 2 0 2
          then (stripSimilarity img203 img203 2 0 2, 0) else (0, 0))
      else searchLoop img203 img203 2 2
        (if ((0 : ℚ), (0 : ℕ)).1 < stripSimilarity img203 img203 2 0 2
          then (stripSimilarity img203 img203 2 0 2, 0) else (0, 0)) 1 2) := rfl
  rw [hstep, overlapWitness_sim]
  norm_num

lemma overlapWitness_find :
    findOverlap img203 img203 1 2 1 = { offset := 1, confidence := 1, matchPosition := 0 } := by
  have h : findOverlap img203 img203 1 2 1 =
      { offset := expectedPositionInCurrent img203 2 1 -
          (((searchLoop img203 img203 (overlapStripStartY img203 2).toNat 2 (0, 0)
            (overlapSearchStart img203 2 1 1).toNat
            ((overlapSearchEnd img203 img203 2 1 1 -
              overlapSearchStart img203 2 1 1 + 1).toNat)).2 : ℕ) : ℤ)
        confidence := (searchLoop img203 img203 (overlapStripStartY img203 2).toNat 2 (0, 0)
            (overlapSearchStart img203 2 1 1).toNat
            ((overlapSearchEnd img203 img203 2 1 1 -
              overlapSearchStart img203 2 1 1 + 1).toNat)).1
        matchPosition := (searchLoop img203 img203 (overlapStripStartY img203 2).toNat 2 (0, 0)
            (overlapSearchStart img203 2 1 1).toNat
            ((overlapSearchEnd img203 img203 2 1 1 -
              overlapSearchStart img203 2 1 1 + 1).toNat)).2 } := rfl
  rw [h,
    show (overlapStripStartY img203 2).toNat = 2 from by decide,
    show (overlapSearchStart img203 2 1 1).toNat = 0 from by decide,
    show ((overlapSearchEnd img203 img203 2 1 1 -
      overlapSearchStart img203 2 1 1 + 1).toNat) = 3 from by decide,
    overlapWitness_loop,
    show expectedPositionInCurrent img203 2 1 = 1 from by decide]
  rfl

/-- Witness for C8: identical all-zero 1×203 images, a scroll of 1 pixel, an
even strip height of 2 and search range 1: the first candidate row matches
perfectly, confidence 1 at row 0, offset 1. -/
theorem findOverlap_offset_spec_witness :
    (findOverlap img203 img203 1 2 1).offset =
      expectedPositionInCurrent img203 2 1 -
        (((findOverlap img203 img203 1 2 1).matchPosition : ℕ) : ℤ) ∧
    (findOverlap img203 img203 1 2 1).confidence =
      stripSimilarity img203 img203 (overlapStripStartY img203 2).toNat
        (findOverlap img203 img203 1 2 1).matchPosition 2 ∧
    overlapSearchStart img203 2 1 1 ≤
      (((findOverlap img203 img203 1 2 1).matchPosition : ℕ) : ℤ) ∧
    (((findOverlap img203 img203 1 2 1).matchPosition : ℕ) : ℤ) ≤
      overlapSearchEnd img203 img203 2 1 1 ∧
    (∀ y : ℕ, overlapSearchStart img203 2 1 1 ≤ (y : ℤ) →
      y < (findOverlap img203 img203 1 2 1).matchPosition →
      stripSimilarity img203 img203 (overlapStripStartY img203 2).toNat y 2 <
        (findOverlap img203 img203 1 2 1).confidence) :=
  findOverlap_offset_spec img203 img203 1 2 1
    (by decide) (by decide) (by decide) (by decide) (by decide)
    (by simp [overlapWitness_find])

end SnapDrive
